import Mathlib

/-!
Shallow embedding of the secret / secret-template logic of the tss-sdk-go
repository (package server): the data model (Secret, SecretField, SshKeyArgs,
SecretTemplate, SecretTemplateField), the template index (GetField,
FieldIdToSlug, FieldSlugToId), the field classifier (separateFileFields), the
write orchestration (writeSecret, CreateSecret, UpdateSecret), file-field
reconciliation (updateFiles, uploadFile), the secret reader (Server.Secret) and
GeneratePassword.

Go slices distinguish nil from an empty non-nil slice (JSON: null vs []); where
that distinction is observable (the Items key of a serialized write body) a Go
slice is modelled as Option (List _) with none standing for the nil slice.
Network transport and JSON decoding are external collaborators: a Server value
carries them as abstract functions, and every operation additionally returns
the ordered list of network events (requests) it issued.
-/

set_option linter.unusedVariables false

/-- The HTTP URL path component for the secrets resource (Go const resource). -/
def resource : String := "secrets"

/-- The HTTP URL path component for the secret templates resource. -/
def templateResource : String := "secret-templates"

/-- SecretField is an item (field) in the secret. -/
structure SecretField where
  ItemID : Int := 0
  FieldID : Int := 0
  FileAttachmentID : Int := 0
  FieldName : String := ""
  Slug : String := ""
  FieldDescription : String := ""
  Filename : String := ""
  ItemValue : String := ""
  IsFile : Bool := false
  IsNotes : Bool := false
  IsPassword : Bool := false
  deriving DecidableEq

/-- SshKeyArgs controls whether to generate an SSH key pair and a private key
passphrase; used for write request bodies only. -/
structure SshKeyArgs where
  GeneratePassphrase : Bool := false
  GenerateSshKeys : Bool := false
  deriving DecidableEq

/-- Secret represents a secret from Delinea Secret Server.  Fields is the Go
slice serialized under the JSON key Items: none models a nil slice (JSON null),
some a non-nil slice.  SshKeyArgs is a nilable pointer. -/
structure Secret where
  Name : String := ""
  FolderID : Int := 0
  ID : Int := 0
  SiteID : Int := 0
  SecretTemplateID : Int := 0
  SecretPolicyID : Int := 0
  PasswordTypeWebScriptID : Int := 0
  LauncherConnectAsSecretID : Int := 0
  CheckOutIntervalMinutes : Int := 0
  Active : Bool := false
  CheckedOut : Bool := false
  CheckOutEnabled : Bool := false
  AutoChangeEnabled : Bool := false
  CheckOutChangePasswordEnabled : Bool := false
  DelayIndexing : Bool := false
  EnableInheritPermissions : Bool := false
  EnableInheritSecretPolicy : Bool := false
  ProxyEnabled : Bool := false
  RequiresComment : Bool := false
  SessionRecordingEnabled : Bool := false
  WebLauncherRequiresIncognitoMode : Bool := false
  Fields : Option (List SecretField) := none
  SshKeyArgs : Option SshKeyArgs := none
  deriving DecidableEq

/-- SecretTemplateField is a field in the secret template. -/
structure SecretTemplateField where
  SecretTemplateFieldID : Int := 0
  FieldSlugName : String := ""
  DisplayName : String := ""
  Description : String := ""
  Name : String := ""
  ListType : String := ""
  IsFile : Bool := false
  IsList : Bool := false
  IsNotes : Bool := false
  IsPassword : Bool := false
  IsRequired : Bool := false
  IsUrl : Bool := false
  deriving DecidableEq

/-- SecretTemplate represents a secret template from Delinea Secret Server. -/
structure SecretTemplate where
  Name : String := ""
  ID : Int := 0
  Fields : List SecretTemplateField := []
  deriving DecidableEq

/-- The elements of a Go slice: a nil slice has no elements. -/
def optList (o : Option (List α)) : List α := o.getD []

/-- Go append of one element onto a possibly-nil slice: the result is always
non-nil. -/
def consSlice (x : α) (xs : Option (List α)) : Option (List α) :=
  some (x :: optList xs)

/-- Linear scan of GetField over the template's field list (first match wins). -/
def getFieldGo (slug : String) : List SecretTemplateField → Option SecretTemplateField
  | [] => none
  | field :: rest =>
    if slug = field.FieldSlugName then some field else getFieldGo slug rest

/-- GetField returns the template field with the given slug; none models the
(nil, false) result of the Go version. -/
def SecretTemplate.GetField (s : SecretTemplate) (slug : String) : Option SecretTemplateField :=
  getFieldGo slug s.Fields

/-- Linear scan of FieldIdToSlug over the template's field list. -/
def fieldIdToSlugGo (fieldId : Int) : List SecretTemplateField → String × Bool
  | [] => ("", false)
  | field :: rest =>
    if fieldId = field.SecretTemplateFieldID then (field.FieldSlugName, true)
    else fieldIdToSlugGo fieldId rest

/-- FieldIdToSlug returns the slug of the field with the given field ID and a
boolean indicating whether the ID identifies a field of the template. -/
def SecretTemplate.FieldIdToSlug (s : SecretTemplate) (fieldId : Int) : String × Bool :=
  fieldIdToSlugGo fieldId s.Fields

/-- FieldSlugToId returns the field ID for the given slug, via GetField. -/
def SecretTemplate.FieldSlugToId (s : SecretTemplate) (slug : String) : Int × Bool :=
  match s.GetField slug with
  | some field => (field.SecretTemplateFieldID, true)
  | none => (0, false)

/-- The error message produced when a field with empty slug carries a field ID
not defined on the template. -/
def fieldIdNotDefined (fieldId : Int) (templateId : Int) : String :=
  "[ERROR] field id '" ++ toString fieldId ++
    "' is not defined on the secret template with id '" ++ toString templateId ++ "'"

/-- The error message produced when a resolved slug is not defined on the
template. -/
def fieldNameNotDefined (slug : String) (templateId : Int) : String :=
  "[ERROR] field name '" ++ slug ++
    "' is not defined on the secret template with id '" ++ toString templateId ++ "'"

/-- The slug-resolution step of separateFileFields for a single field: the
field's own slug when non-empty, otherwise the slug obtained from the template
by field ID, failing with the field-id-not-defined error. -/
def resolveSlug (template : SecretTemplate) (field : SecretField) : Except String String :=
  if field.Slug = "" then
    match template.FieldIdToSlug field.FieldID with
    | (slug, true) => Except.ok slug
    | (_, false) => Except.error (fieldIdNotDefined field.FieldID template.ID)
  else Except.ok field.Slug

/-- The loop body of separateFileFields, one secret field at a time, in input
order; output slices are built with Go append starting from nil slices. -/
def separateGo (template : SecretTemplate) :
    List SecretField → Except String (Option (List SecretField) × Option (List SecretField))
  | [] => Except.ok (none, none)
  | field :: rest =>
    match resolveSlug template field with
    | Except.error e => Except.error e
    | Except.ok fieldSlug =>
      match template.GetField fieldSlug with
      | none => Except.error (fieldNameNotDefined fieldSlug template.ID)
      | some templateField =>
        match separateGo template rest with
        | Except.error e => Except.error e
        | Except.ok (fileFields, nonFileFields) =>
          if templateField.IsFile then Except.ok (consSlice field fileFields, nonFileFields)
          else Except.ok (fileFields, consSlice field nonFileFields)

/-- separateFileFields iterates the fields on this secret and separates them
into file fields and non-file fields, using the field definitions of the given
template as a guide; file fields first, non-file fields second. -/
def Secret.separateFileFields (s : Secret) (template : SecretTemplate) :
    Except String (Option (List SecretField) × Option (List SecretField)) :=
  separateGo template (optList s.Fields)

/-- The resolution a single field undergoes in separateFileFields: by its slug,
or via the template's FieldIdToSlug when its slug is empty; none when the field
does not resolve to a template field definition. -/
def resolveField (template : SecretTemplate) (field : SecretField) : Option SecretTemplateField :=
  if field.Slug = "" then
    match template.FieldIdToSlug field.FieldID with
    | (slug, true) => template.GetField slug
    | (_, false) => none
  else template.GetField field.Slug

/-- Whether a secret field resolves to a template field definition marked
IsFile. -/
def resolvesToFileField (template : SecretTemplate) (field : SecretField) : Bool :=
  match resolveField template field with
  | some templateField => templateField.IsFile
  | none => false

/-- A word character of the RE2 character class backslash-w: an ASCII letter,
an ASCII digit, or an underscore. -/
def isWordChar (c : Char) : Bool := c.isAlphanum || c = '_'

/-- Decision procedure for whether a filename matches the Go regular expression
pattern of uploadFile (one or more non-dot characters, a dot, then one or more
word characters, anchored at the end of the string, unanchored at the start):
the maximal word-character suffix must be non-empty, preceded by a dot which is
itself preceded by some non-dot character. -/
def extMatch (filename : String) : Bool :=
  match (filename.toList.reverse).dropWhile isWordChar with
  | c1 :: c2 :: _ =>
    c1 == '.' && !(c2 == '.') &&
      !((filename.toList.reverse).takeWhile isWordChar).isEmpty
  | _ => false

/-- The matching relation of the regular expression of uploadFile, stated as
the existence of a decomposition: some prefix, a non-dot character, a dot, and
a non-empty run of word characters reaching the end of the string. -/
def extRegexMatches (filename : String) : Prop :=
  ∃ a c w, filename.toList = a ++ c :: '.' :: w ∧ c ≠ '.' ∧ w ≠ [] ∧
    ∀ ch ∈ w, isWordChar ch = true

/-- Go slicing data[1 : len(data)-1] for a byte string of length at least two:
drop the first and the last byte. -/
def stripFirstLastByte (data : String) : String :=
  (data.drop 1).dropRight 1

/-- One modification of a field inside the partial-update (PATCH) body built by
updateFiles; Value is the Go interface value, always nil (none) here. -/
structure fieldMod where
  Slug : String
  Dirty : Bool
  Value : Option String
  deriving DecidableEq

/-- The SecretFields wrapper of the PATCH body. -/
structure fieldMods where
  SecretFields : List fieldMod
  deriving DecidableEq

/-- The PATCH body sent by updateFiles to delete a file attachment's content. -/
structure secretPatch where
  Data : fieldMods
  deriving DecidableEq

/-- A JSON request body passed to the transport collaborator. -/
inductive ReqBody where
  | secretBody (s : Secret)
  | patchBody (p : secretPatch)
  deriving DecidableEq

/-- A network event: either an authenticated JSON request through
accessResource, or a multipart file upload (the PUT issued by uploadFile). -/
inductive NetEvent where
  | access (method res path : String) (input : Option ReqBody)
  | upload (secretId : Int) (slug filename content : String)
  deriving DecidableEq

/-- Whether a network event mutates server state (POST, PUT, PATCH or a file
upload). -/
def isMutation : NetEvent → Bool
  | NetEvent.access method _ _ _ => method = "POST" || method = "PUT" || method = "PATCH"
  | NetEvent.upload _ _ _ _ => true

/-- The secret carried by an event as a serialized write body, if any. -/
def eventSecretBody : NetEvent → Option Secret
  | NetEvent.access _ _ _ (some (ReqBody.secretBody b)) => some b
  | _ => none

/-- The Server: the transport and JSON-decoding collaborators the secret logic
calls through.  accessResource models the authenticated JSON round-trip
(method, resource, path, body) returning raw response bytes; uploadRequest
models the multipart PUT of uploadFile (secretId, slug, filename, content);
the unmarshal functions model json.Unmarshal into the given record type. -/
structure Server where
  accessResource : String → String → String → Option ReqBody → Except String String
  uploadRequest : Int → String → String → String → Except String Unit
  unmarshalSecret : String → Except String Secret
  unmarshalTemplate : String → Except String SecretTemplate

/-- Alias for the Secret record type, needed inside the Server namespace where
the name Secret denotes the fetch operation. -/
abbrev SecretData := Secret

/-- Alias for the SecretTemplate record type, needed inside the Server
namespace where the name SecretTemplate denotes the fetch operation. -/
abbrev SecretTemplateData := SecretTemplate

/-- Prepend already-issued events onto the trace of a continuation's result. -/
def prependTrace (tr : List NetEvent) (p : Except String α × List NetEvent) :
    Except String α × List NetEvent :=
  (p.1, tr ++ p.2)

/-- SecretTemplate fetches the secret template with the given id. -/
def Server.SecretTemplate (s : Server) (id : Int) :
    Except String SecretTemplateData × List NetEvent :=
  let ev := NetEvent.access "GET" templateResource (toString id) none
  match s.accessResource "GET" templateResource (toString id) none with
  | Except.error e => (Except.error e, [ev])
  | Except.ok data =>
    match s.unmarshalTemplate data with
    | Except.error e => (Except.error e, [ev])
    | Except.ok secretTemplate => (Except.ok secretTemplate, [ev])

/-- Whether a fetched secret field triggers the automatic download of its file
attachment (IsFile, non-zero FileAttachmentID, non-empty Filename). -/
def needsDownload (f : SecretField) : Bool :=
  f.IsFile && f.FileAttachmentID != 0 && f.Filename != ""

/-- The resource path of a field's file attachment. -/
def fieldPath (id : Int) (slug : String) : String :=
  toString id ++ "/fields/" ++ slug

/-- The file-attachment download loop of Server.Secret, one field at a time in
input order; a failing fetch aborts the whole read. -/
def downloadFileFields (s : Server) (id : Int) :
    List SecretField → Except String (List SecretField) × List NetEvent
  | [] => (Except.ok [], [])
  | element :: rest =>
    if needsDownload element then
      let ev := NetEvent.access "GET" resource (fieldPath id element.Slug) none
      match s.accessResource "GET" resource (fieldPath id element.Slug) none with
      | Except.ok data =>
        match downloadFileFields s id rest with
        | (Except.ok restFields, tr) =>
          (Except.ok ({ element with ItemValue := data } :: restFields), ev :: tr)
        | (Except.error e, tr) => (Except.error e, ev :: tr)
      | Except.error e => (Except.error e, [ev])
    else
      match downloadFileFields s id rest with
      | (Except.ok restFields, tr) => (Except.ok (element :: restFields), tr)
      | (Except.error e, tr) => (Except.error e, tr)

/-- Secret gets the secret with id, automatically downloading file attachments
and substituting them for the (dummy) ItemValue. -/
def Server.Secret (s : Server) (id : Int) : Except String SecretData × List NetEvent :=
  let ev := NetEvent.access "GET" resource (toString id) none
  match s.accessResource "GET" resource (toString id) none with
  | Except.error e => (Except.error e, [ev])
  | Except.ok data =>
    match s.unmarshalSecret data with
    | Except.error e => (Except.error e, [ev])
    | Except.ok secret =>
      match secret.Fields with
      | none => (Except.ok secret, [ev])
      | some fields =>
        match downloadFileFields s id fields with
        | (Except.ok newFields, tr) =>
          (Except.ok { secret with Fields := some newFields }, ev :: tr)
        | (Except.error e, tr) => (Except.error e, ev :: tr)

/-- The filename assigned by uploadFile: the fixed placeholder File.txt when
the field gave no filename, the filename with a default .txt extension
appended when it lacks a dot-extension, the filename unchanged otherwise. -/
def uploadFilename (filename : String) : String :=
  if filename = "" then "File.txt"
  else if extMatch filename then filename
  else filename ++ ".txt"

/-- uploadFile uploads the file described by the given field to the secret with
the given id as a multipart PUT at secretId/fields/slug. -/
def Server.uploadFile (s : Server) (secretId : Int) (fileField : SecretField) :
    Except String Unit × List NetEvent :=
  let filename := uploadFilename fileField.Filename
  (s.uploadRequest secretId fileField.Slug filename fileField.ItemValue,
   [NetEvent.upload secretId fileField.Slug filename fileField.ItemValue])

/-- The PATCH body updateFiles sends to delete a file attachment's content:
the single modification marking the slug dirty with a null value. -/
def patchFor (slug : String) : secretPatch :=
  { Data := { SecretFields := [{ Slug := slug, Dirty := true, Value := none }] } }

/-- updateFiles iterates the list of file fields in order: an empty item value
deletes the file via a PATCH, a non-empty one uploads it; the first error on
either path aborts. -/
def Server.updateFiles (s : Server) (secretId : Int) :
    List SecretField → Except String Unit × List NetEvent
  | [] => (Except.ok (), [])
  | element :: rest =>
    if element.ItemValue = "" then
      let path := toString secretId ++ "/general"
      let ev := NetEvent.access "PATCH" resource path (some (ReqBody.patchBody (patchFor element.Slug)))
      match s.accessResource "PATCH" resource path (some (ReqBody.patchBody (patchFor element.Slug))) with
      | Except.error e => (Except.error e, [ev])
      | Except.ok _ =>
        let p := Server.updateFiles s secretId rest
        (p.1, ev :: p.2)
    else
      match Server.uploadFile s secretId element with
      | (Except.error e, tr) => (Except.error e, tr)
      | (Except.ok _, tr) =>
        let p := Server.updateFiles s secretId rest
        (p.1, tr ++ p.2)

/-- The SshKeyArgs normalization of writeSecret: an SshKeyArgs value whose two
flags are both false is removed, since its mere presence causes the server to
reject the request on templates without generation support. -/
def normalizeSshKeyArgs (secret : Secret) : Secret :=
  match secret.SshKeyArgs with
  | some args =>
    if !args.GenerateSshKeys && !args.GeneratePassphrase then
      { secret with SshKeyArgs := none }
    else secret
  | none => secret

/-- The nil-Items substitution of writeSecret: a nil field list becomes an
explicit empty list so the serialized request keeps the required key. -/
def defaultEmptyFields (secret : Secret) : Secret :=
  match secret.Fields with
  | none => { secret with Fields := some [] }
  | some _ => secret

/-- The tail of writeSecret after the classification branch (source lines
116-147): SshKeyArgs normalization, nil-Items substitution, the main write
request, file-field reconciliation, and the final re-read. -/
def Server.afterClassification (s : Server) (secret : SecretData)
    (fileFields : Option (List SecretField)) (method path : String) :
    Except String SecretData × List NetEvent :=
  let toSend := defaultEmptyFields (normalizeSshKeyArgs secret)
  let ev := NetEvent.access method resource path (some (ReqBody.secretBody toSend))
  match s.accessResource method resource path (some (ReqBody.secretBody toSend)) with
  | Except.error e => (Except.error e, [ev])
  | Except.ok data =>
    match s.unmarshalSecret data with
    | Except.error e => (Except.error e, [ev])
    | Except.ok writtenSecret =>
      match Server.updateFiles s writtenSecret.ID (optList fileFields) with
      | (Except.error e, tr) => (Except.error e, ev :: tr)
      | (Except.ok _, tr) =>
        let p := Server.Secret s writtenSecret.ID
        (p.1, ev :: (tr ++ p.2))

/-- writeSecret: fetch the template, separate file fields from general fields
unless SSH key generation is requested (SshKeyArgs non-nil with GenerateSshKeys
true), then continue with the request tail.  The skip branch keeps the
in-memory field list and an empty (non-nil) file-field list. -/
def Server.writeSecret (s : Server) (secret : SecretData) (method path : String) :
    Except String SecretData × List NetEvent :=
  match Server.SecretTemplate s secret.SecretTemplateID with
  | (Except.error e, tr) => (Except.error e, tr)
  | (Except.ok template, tr) =>
    let skipClassification : Bool :=
      match secret.SshKeyArgs with
      | none => false
      | some args => args.GenerateSshKeys
    if skipClassification then
      prependTrace tr (Server.afterClassification s secret (some []) method path)
    else
      match secret.separateFileFields template with
      | Except.error e => (Except.error e, tr)
      | Except.ok (fileFields, generalFields) =>
        prependTrace tr
          (Server.afterClassification s { secret with Fields := generalFields } fileFields method path)

/-- CreateSecret writes a new secret with POST at the root path. -/
def Server.CreateSecret (s : Server) (secret : SecretData) :
    Except String SecretData × List NetEvent :=
  Server.writeSecret s secret "POST" "/"

/-- The error UpdateSecret returns when the SSH-generation directive requests
key or passphrase generation. -/
def updateSshKeyGenError (name : String) : String :=
  "[ERROR] SSH key and passphrase generation is only supported during secret creation. Could not update the secret named '" ++ name ++ "'"

/-- UpdateSecret rejects SSH key or passphrase generation (creation-only),
clears the directive, and delegates to writeSecret with PUT at the secret's
own ID. -/
def Server.UpdateSecret (s : Server) (secret : SecretData) :
    Except String SecretData × List NetEvent :=
  match secret.SshKeyArgs with
  | some args =>
    if args.GenerateSshKeys || args.GeneratePassphrase then
      (Except.error (updateSshKeyGenError secret.Name), [])
    else
      Server.writeSecret s { secret with SshKeyArgs := none } "PUT" (toString secret.ID)
  | none => Server.writeSecret s { secret with SshKeyArgs := none } "PUT" (toString secret.ID)

/-- GeneratePassword generates a password for the field with the given slug on
the given template: a failed slug lookup is only logged and field ID 0 is used;
a successful response is returned with its first and last byte stripped. -/
def Server.GeneratePassword (s : Server) (slug : String) (template : SecretTemplateData) :
    Except String String × List NetEvent :=
  let fieldId := (template.FieldSlugToId slug).1
  let path := "generate-password/" ++ toString fieldId
  let ev := NetEvent.access "POST" templateResource path none
  match s.accessResource "POST" templateResource path none with
  | Except.ok data => (Except.ok (stripFirstLastByte data), [ev])
  | Except.error e => (Except.error e, [ev])

/-! ## Basic lemmas about the Go-slice model and the field classifier -/

theorem optList_consSlice (x : α) (o : Option (List α)) :
    optList (consSlice x o) = x :: optList o := rfl

/-- resolveField restated through resolveSlug and GetField, the two steps the
loop body of separateFileFields performs. -/
theorem resolveField_eq (template : SecretTemplate) (field : SecretField) :
    resolveField template field =
      match resolveSlug template field with
      | Except.ok slug => template.GetField slug
      | Except.error _ => none := by
  unfold resolveField resolveSlug
  by_cases hslug : field.Slug = ""
  · rw [if_pos hslug, if_pos hslug]
    rcases template.FieldIdToSlug field.FieldID with ⟨slug, b⟩
    cases b <;> rfl
  · rw [if_neg hslug, if_neg hslug]

/-- Characterization of the classifier on a list whose every field resolves:
it succeeds and the two outputs are the stable filtrations of the input by the
is-file flag of the resolved template field. -/
theorem separateGo_partition (template : SecretTemplate) (l : List SecretField)
    (h : ∀ f ∈ l, (resolveField template f).isSome = true) :
    ∃ ff gf, separateGo template l = Except.ok (ff, gf) ∧
      optList ff = l.filter (resolvesToFileField template) ∧
      optList gf = l.filter (fun f => !resolvesToFileField template f) := by
  induction l with
  | nil => exact ⟨none, none, rfl, rfl, rfl⟩
  | cons field rest ih =>
    obtain ⟨ff, gf, heq, h1, h2⟩ := ih (fun f hfm => h f (List.mem_cons_of_mem _ hfm))
    obtain ⟨tf, htf⟩ := Option.isSome_iff_exists.mp (h field (List.mem_cons_self _ _))
    have hfile : resolvesToFileField template field = tf.IsFile := by
      unfold resolvesToFileField
      rw [htf]
    cases hres : resolveSlug template field with
    | error e =>
      exfalso
      have hnone : resolveField template field = none := by
        rw [resolveField_eq, hres]
      rw [hnone] at htf
      exact Option.noConfusion htf
    | ok slug =>
      have hget : template.GetField slug = some tf := by
        have h' := htf
        rw [resolveField_eq, hres] at h'
        exact h'
      cases hisfile : tf.IsFile with
      | true =>
        refine ⟨consSlice field ff, gf, ?_, ?_, ?_⟩
        · simp only [separateGo, hres, hget, heq, hisfile, if_true]
        · rw [optList_consSlice, h1, List.filter_cons_of_pos (by rw [hfile, hisfile])]
        · rw [h2, List.filter_cons_of_neg (by simp [hfile, hisfile])]
      | false =>
        refine ⟨ff, consSlice field gf, ?_, ?_, ?_⟩
        · simp only [separateGo, hres, hget, heq, hisfile]
          rfl
        · rw [h1, List.filter_cons_of_neg (by simp [hfile, hisfile])]
        · rw [optList_consSlice, h2, List.filter_cons_of_pos (by simp [hfile, hisfile])]

/-- C1: for every template T and secret S each of whose fields resolves (by
slug, or via the template when the slug is empty) to a field definition of T,
separateFileFields succeeds and returns a stable partition of S's field list:
the file output is exactly the input filtered to fields whose resolved
definition has IsFile, the general output exactly the input filtered to the
rest, each in input order, so every field appears in exactly one output with
no loss or duplication. -/
theorem separateFileFields_stable_partition (s : Secret) (template : SecretTemplate)
    (h : ∀ f ∈ optList s.Fields, (resolveField template f).isSome = true) :
    ∃ ff gf, s.separateFileFields template = Except.ok (ff, gf) ∧
      optList ff = (optList s.Fields).filter (resolvesToFileField template) ∧
      optList gf = (optList s.Fields).filter (fun f => !resolvesToFileField template f) := by
  unfold Secret.separateFileFields
  exact separateGo_partition template (optList s.Fields) h

/-! ## Concrete instances used by closed test theorems -/

/-- A server whose collaborators always fail; usable where no network traffic
is expected. -/
def stubServer : Server :=
  { accessResource := fun _ _ _ _ => Except.error "offline"
    uploadRequest := fun _ _ _ _ => Except.error "offline"
    unmarshalSecret := fun _ => Except.error "offline"
    unmarshalTemplate := fun _ => Except.error "offline" }

/-- A template with one password field and one file field. -/
def sampleTemplate : SecretTemplate :=
  { Name := "t"
    ID := 0
    Fields := [{ SecretTemplateFieldID := 1, FieldSlugName := "password", IsPassword := true },
               { SecretTemplateFieldID := 2, FieldSlugName := "key", IsFile := true }] }

/-- A concrete non-file secret field referencing the password slug. -/
def samplePasswordField : SecretField :=
  { FieldID := 1, Slug := "password", ItemValue := "p4ss" }

/-- A concrete file secret field referencing the key slug. -/
def sampleFileField : SecretField :=
  { FieldID := 2, FileAttachmentID := 7, Slug := "key", Filename := "k.pem",
    ItemValue := "old", IsFile := true }

/-- A secret whose two fields both resolve on sampleTemplate. -/
def c1Secret : Secret :=
  { SecretTemplateID := 0, Fields := some [samplePasswordField, sampleFileField] }

/-- Witness for C1 at a concrete secret and template: both fields resolve and
the classifier partitions them. -/
theorem separateFileFields_stable_partition_witness :
    ∃ ff gf, c1Secret.separateFileFields sampleTemplate = Except.ok (ff, gf) ∧
      optList ff = (optList c1Secret.Fields).filter (resolvesToFileField sampleTemplate) ∧
      optList gf = (optList c1Secret.Fields).filter
        (fun f => !resolvesToFileField sampleTemplate f) :=
  separateFileFields_stable_partition c1Secret sampleTemplate (by decide)

/-- C2: UpdateSecret rejects any secret whose SshKeyArgs directive requests key
or passphrase generation, returning an error with no network event at all (no
template fetch, no write); on acceptance it clears the directive to nil before
delegating to the shared write path with method PUT at the secret's own ID. -/
theorem UpdateSecret_ssh_directive (s : Server) (secret : Secret) :
    (∀ args, secret.SshKeyArgs = some args →
      (args.GenerateSshKeys || args.GeneratePassphrase) = true →
      Server.UpdateSecret s secret = (Except.error (updateSshKeyGenError secret.Name), [])) ∧
    ((∀ args, secret.SshKeyArgs = some args →
        args.GenerateSshKeys = false ∧ args.GeneratePassphrase = false) →
      Server.UpdateSecret s secret =
        Server.writeSecret s { secret with SshKeyArgs := none } "PUT" (toString secret.ID)) := by
  constructor
  · intro args hargs hgen
    unfold Server.UpdateSecret
    rw [hargs]
    simp [hgen]
  · intro hall
    unfold Server.UpdateSecret
    cases hsk : secret.SshKeyArgs with
    | none => rfl
    | some args =>
      obtain ⟨h1, h2⟩ := hall args hsk
      simp [h1, h2]

/-- A secret carrying a passphrase-generation directive. -/
def sshGenSecret : Secret :=
  { Name := "s", SshKeyArgs := some { GeneratePassphrase := true, GenerateSshKeys := false } }

/-- Witness for C2: a concrete update carrying a passphrase-generation
directive is rejected with no network traffic. -/
theorem UpdateSecret_ssh_directive_witness :
    Server.UpdateSecret stubServer sshGenSecret =
      (Except.error (updateSshKeyGenError "s"), []) :=
  (UpdateSecret_ssh_directive stubServer sshGenSecret).1
    { GeneratePassphrase := true, GenerateSshKeys := false } rfl rfl

/-- A secret field whose slug resolves to nothing on sampleTemplate. -/
def badField : SecretField := { Slug := "x" }

/-- The fixed secret every unmarshalSecret call of okServer decodes to. -/
def okSecret : Secret := { ID := 9, Fields := none }

/-- A server whose every request succeeds with the fixed body DD, whose
templates decode to sampleTemplate and whose secrets decode to okSecret. -/
def okServer : Server :=
  { accessResource := fun _ _ _ _ => Except.ok "DD"
    uploadRequest := fun _ _ _ _ => Except.ok ()
    unmarshalSecret := fun _ => Except.ok okSecret
    unmarshalTemplate := fun _ => Except.ok sampleTemplate }

/-- A secret carrying a passphrase-only generation directive together with an
unresolvable field. -/
def c3Secret : Secret :=
  { SecretTemplateID := 0, Fields := some [badField],
    SshKeyArgs := some { GeneratePassphrase := true, GenerateSshKeys := false } }

/-- C3 counterexample: a secret whose directive is non-nil with
GeneratePassphrase true (GenerateSshKeys false) is not exempt from
classification; the classifier runs (its failure on the unresolvable field
aborts the write), refuting the claim that classification is skipped whenever
at least one of the two directive flags is true. -/
theorem writeSecret_passphrase_only_runs_classifier_cex :
    c3Secret.SshKeyArgs = some { GeneratePassphrase := true, GenerateSshKeys := false } ∧
    Server.writeSecret okServer c3Secret "POST" "/" =
      (Except.error (fieldNameNotDefined "x" 0),
       [NetEvent.access "GET" templateResource "0" none]) := by
  constructor
  · rfl
  · rfl

/-- C3 (amended): after a successful template fetch, the field classifier runs
if and only if the SSH-generation directive is absent or its GenerateSshKeys
flag is false.  When SshKeyArgs is non-nil with GenerateSshKeys true,
classification is skipped entirely: the write continues with the in-memory
field list unchanged and an empty retained file-field list.  Otherwise (also
when only GeneratePassphrase is true) the classifier runs: its failure aborts
the write, and on success the secret's field list is replaced by the general
fields while the file fields are retained for post-write reconciliation. -/
theorem writeSecret_classifier_branch (s : Server) (secret : Secret)
    (method path : String) (template : SecretTemplate)
    (ht : (Server.SecretTemplate s secret.SecretTemplateID).1 = Except.ok template) :
    ((∃ args, secret.SshKeyArgs = some args ∧ args.GenerateSshKeys = true) →
      Server.writeSecret s secret method path =
        prependTrace (Server.SecretTemplate s secret.SecretTemplateID).2
          (Server.afterClassification s secret (some []) method path)) ∧
    ((secret.SshKeyArgs = none ∨
        ∃ args, secret.SshKeyArgs = some args ∧ args.GenerateSshKeys = false) →
      (∀ e, secret.separateFileFields template = Except.error e →
        Server.writeSecret s secret method path =
          (Except.error e, (Server.SecretTemplate s secret.SecretTemplateID).2)) ∧
      (∀ ff gf, secret.separateFileFields template = Except.ok (ff, gf) →
        Server.writeSecret s secret method path =
          prependTrace (Server.SecretTemplate s secret.SecretTemplateID).2
            (Server.afterClassification s { secret with Fields := gf } ff method path))) := by
  rcases hp : Server.SecretTemplate s secret.SecretTemplateID with ⟨r, tr⟩
  rw [hp] at ht
  have hr : r = Except.ok template := ht
  subst hr
  constructor
  · rintro ⟨args, hargs, hgen⟩
    unfold Server.writeSecret
    rw [hp, hargs]
    simp [hgen]
  · intro hno
    have hskip : (match secret.SshKeyArgs with
        | none => false
        | some args => args.GenerateSshKeys) = false := by
      rcases hno with hnone | ⟨args, hargs, hgen⟩
      · rw [hnone]
      · rw [hargs]
        exact hgen
    constructor
    · intro e hsep
      unfold Server.writeSecret
      rw [hp, hskip]
      simp [hsep]
    · intro ff gf hsep
      unfold Server.writeSecret
      rw [hp, hskip]
      simp [hsep]

/-- A secret carrying a key-generation directive together with an unresolvable
field (classification would fail if it ran). -/
def sshSkipSecret : Secret :=
  { SecretTemplateID := 0, Fields := some [badField],
    SshKeyArgs := some { GeneratePassphrase := false, GenerateSshKeys := true } }

/-- Witness for the amended C3: with GenerateSshKeys true the write proceeds
straight to the request tail, skipping classification. -/
theorem writeSecret_classifier_branch_witness :
    Server.writeSecret okServer sshSkipSecret "POST" "/" =
      prependTrace (Server.SecretTemplate okServer sshSkipSecret.SecretTemplateID).2
        (Server.afterClassification okServer sshSkipSecret (some []) "POST" "/") :=
  (writeSecret_classifier_branch okServer sshSkipSecret "POST" "/" sampleTemplate rfl).1
    ⟨{ GeneratePassphrase := false, GenerateSshKeys := true }, rfl, rfl⟩

/-- C4 counterexample: a write whose secret carries an unresolvable field but
requests SSH key generation does not fail: classification is bypassed, the
write succeeds, and a mutating POST is issued, refuting the unconditional
claim that an unresolvable field always fails the write with a classification
error and without mutation. -/
theorem writeSecret_sshgen_bypasses_classification_cex :
    resolveField sampleTemplate badField = none ∧
    Server.writeSecret okServer sshSkipSecret "POST" "/" =
      (Except.ok okSecret,
       [NetEvent.access "GET" templateResource "0" none,
        NetEvent.access "POST" resource "/" (some (ReqBody.secretBody sshSkipSecret)),
        NetEvent.access "GET" resource "9" none]) ∧
    isMutation (NetEvent.access "POST" resource "/" (some (ReqBody.secretBody sshSkipSecret))) = true :=
  ⟨rfl, rfl, rfl⟩

/-- The trace of a template fetch is always the single GET request. -/
theorem SecretTemplate_trace (s : Server) (id : Int) :
    (Server.SecretTemplate s id).2 =
      [NetEvent.access "GET" templateResource (toString id) none] := by
  unfold Server.SecretTemplate
  cases hres : s.accessResource "GET" templateResource (toString id) none with
  | error e => simp [hres]
  | ok data =>
    cases hum : s.unmarshalTemplate data with
    | error e => simp [hres, hum]
    | ok t => simp [hres, hum]

/-- The error the classifier reports for an unresolvable field: the
slug-resolution error when the empty slug cannot be resolved by field ID,
the field-name error for the resolved slug otherwise. -/
def classificationError (template : SecretTemplate) (x : SecretField) : String :=
  match resolveSlug template x with
  | Except.error e => e
  | Except.ok slug => fieldNameNotDefined slug template.ID

/-- The classifier aborts at the first unresolvable field with its
classification error. -/
theorem separateGo_first_error (template : SecretTemplate) (pre : List SecretField)
    (x : SecretField) (rest : List SecretField)
    (hpre : ∀ f ∈ pre, (resolveField template f).isSome = true)
    (hx : resolveField template x = none) :
    separateGo template (pre ++ x :: rest) =
      Except.error (classificationError template x) := by
  induction pre with
  | nil =>
    simp only [List.nil_append]
    cases hres : resolveSlug template x with
    | error e =>
      simp only [separateGo, classificationError, hres]
    | ok slug =>
      have hget : template.GetField slug = none := by
        have h' := hx
        rw [resolveField_eq, hres] at h'
        exact h'
      simp only [separateGo, classificationError, hres, hget]
  | cons f pre' ih =>
    have hf := hpre f (List.mem_cons_self _ _)
    obtain ⟨tf, htf⟩ := Option.isSome_iff_exists.mp hf
    cases hres : resolveSlug template f with
    | error e =>
      exfalso
      have hnone : resolveField template f = none := by
        rw [resolveField_eq, hres]
      rw [hnone] at htf
      exact Option.noConfusion htf
    | ok slug =>
      have hget : template.GetField slug = some tf := by
        have h' := htf
        rw [resolveField_eq, hres] at h'
        exact h'
      have ihh := ih (fun g hg => hpre g (List.mem_cons_of_mem _ hg))
      simp only [List.cons_append, separateGo, hres, hget, List.append_eq, ihh]

/-- When classification runs and fails, writeSecret returns the classification
error having issued only the template GET. -/
theorem writeSecret_run_error (s : Server) (secret : Secret)
    (method path : String) (template : SecretTemplate) (e : String)
    (ht : (Server.SecretTemplate s secret.SecretTemplateID).1 = Except.ok template)
    (hrun : secret.SshKeyArgs = none ∨
      ∃ args, secret.SshKeyArgs = some args ∧ args.GenerateSshKeys = false)
    (hsep : secret.separateFileFields template = Except.error e) :
    Server.writeSecret s secret method path =
      (Except.error e, (Server.SecretTemplate s secret.SecretTemplateID).2) := by
  rcases hp : Server.SecretTemplate s secret.SecretTemplateID with ⟨r, tr⟩
  rw [hp] at ht
  have hr : r = Except.ok template := ht
  subst hr
  have hskip : (match secret.SshKeyArgs with
      | none => false
      | some args => args.GenerateSshKeys) = false := by
    rcases hrun with hnone | ⟨args, hargs, hgen⟩
    · rw [hnone]
    · rw [hargs]
      exact hgen
  unfold Server.writeSecret
  rw [hp, hskip]
  simp [hsep]

/-- C4 (amended): when classification runs — the directive is absent or its
GenerateSshKeys flag is false — and some field of the secret fails to resolve
against the template (all fields before it resolving), the write fails with
the corresponding classification error: the field-id error for an empty slug
whose field ID is not defined on the template, the field-name error for a
resolved slug not defined on the template; the only network event issued is
the template GET, so no mutating request (POST, PUT, PATCH or upload) is
issued for that write. -/
theorem writeSecret_classification_failure (s : Server) (secret : Secret)
    (method path : String) (template : SecretTemplate)
    (pre : List SecretField) (x : SecretField) (rest : List SecretField)
    (ht : (Server.SecretTemplate s secret.SecretTemplateID).1 = Except.ok template)
    (hrun : secret.SshKeyArgs = none ∨
      ∃ args, secret.SshKeyArgs = some args ∧ args.GenerateSshKeys = false)
    (hfs : optList secret.Fields = pre ++ x :: rest)
    (hpre : ∀ f ∈ pre, (resolveField template f).isSome = true)
    (hx : resolveField template x = none) :
    Server.writeSecret s secret method path =
      (Except.error (classificationError template x),
       [NetEvent.access "GET" templateResource (toString secret.SecretTemplateID) none]) ∧
    (∀ ev ∈ (Server.writeSecret s secret method path).2, isMutation ev = false) ∧
    (x.Slug = "" → (template.FieldIdToSlug x.FieldID).2 = false →
      classificationError template x = fieldIdNotDefined x.FieldID template.ID) ∧
    (x.Slug = "" → ∀ slug, template.FieldIdToSlug x.FieldID = (slug, true) →
      classificationError template x = fieldNameNotDefined slug template.ID) ∧
    (x.Slug ≠ "" →
      classificationError template x = fieldNameNotDefined x.Slug template.ID) := by
  have hsep : secret.separateFileFields template =
      Except.error (classificationError template x) := by
    unfold Secret.separateFileFields
    rw [hfs]
    exact separateGo_first_error template pre x rest hpre hx
  have heq := writeSecret_run_error s secret method path template
    (classificationError template x) ht hrun hsep
  rw [SecretTemplate_trace] at heq
  refine ⟨heq, ?_, ?_, ?_, ?_⟩
  · intro ev hev
    rw [heq] at hev
    simp only [List.mem_singleton] at hev
    rw [hev]
    rfl
  · intro hslug hfalse
    unfold classificationError resolveSlug
    rcases hid : template.FieldIdToSlug x.FieldID with ⟨sl, b⟩
    rw [hid] at hfalse
    simp only at hfalse
    subst hfalse
    simp [hslug]
  · intro hslug slug hid
    unfold classificationError resolveSlug
    rw [hid]
    have hget : template.GetField slug = none := by
      have h' := hx
      unfold resolveField at h'
      rw [if_pos hslug, hid] at h'
      exact h'
    simp [hslug]
  · intro hslug
    unfold classificationError resolveSlug
    simp [hslug]

/-- A secret with no directive and one unresolvable field. -/
def c4RunSecret : Secret := { SecretTemplateID := 0, Fields := some [badField] }

/-- Witness for the amended C4 at a concrete server and secret: the write
fails with the field-name error after issuing only the template GET. -/
theorem writeSecret_classification_failure_witness :
    Server.writeSecret okServer c4RunSecret "POST" "/" =
      (Except.error (classificationError sampleTemplate badField),
       [NetEvent.access "GET" templateResource (toString c4RunSecret.SecretTemplateID) none]) ∧
    (∀ ev ∈ (Server.writeSecret okServer c4RunSecret "POST" "/").2, isMutation ev = false) ∧
    (badField.Slug = "" → (sampleTemplate.FieldIdToSlug badField.FieldID).2 = false →
      classificationError sampleTemplate badField = fieldIdNotDefined badField.FieldID sampleTemplate.ID) ∧
    (badField.Slug = "" → ∀ slug, sampleTemplate.FieldIdToSlug badField.FieldID = (slug, true) →
      classificationError sampleTemplate badField = fieldNameNotDefined slug sampleTemplate.ID) ∧
    (badField.Slug ≠ "" →
      classificationError sampleTemplate badField = fieldNameNotDefined badField.Slug sampleTemplate.ID) :=
  writeSecret_classification_failure okServer c4RunSecret "POST" "/" sampleTemplate
    [] badField [] rfl (Or.inl rfl) rfl (by decide) (by decide)

/-! ## Which events carry a serialized secret body -/

/-- The single event of uploadFile is an upload, never a serialized secret. -/
theorem uploadFile_no_secret_body (s : Server) (id : Int) (f : SecretField) :
    ∀ ev ∈ (Server.uploadFile s id f).2, eventSecretBody ev = none := by
  intro ev hev
  simp only [Server.uploadFile, List.mem_singleton] at hev
  rw [hev]
  rfl

/-- No event of updateFiles carries a serialized secret body (they are PATCH
requests with a patch body, or uploads). -/
theorem updateFiles_no_secret_body (s : Server) (id : Int) (l : List SecretField) :
    ∀ ev ∈ (Server.updateFiles s id l).2, eventSecretBody ev = none := by
  induction l with
  | nil =>
    intro ev hev
    simp [Server.updateFiles] at hev
  | cons element rest ih =>
    intro ev hev
    by_cases hval : element.ItemValue = ""
    · cases hres : s.accessResource "PATCH" resource (toString id ++ "/general")
          (some (ReqBody.patchBody (patchFor element.Slug))) with
      | error e =>
        simp only [Server.updateFiles, if_pos hval, hres, List.mem_singleton] at hev
        rw [hev]
        rfl
      | ok u =>
        simp only [Server.updateFiles, if_pos hval, hres, List.mem_cons] at hev
        rcases hev with hev | hev
        · rw [hev]
          rfl
        · exact ih ev hev
    · rcases hup : Server.uploadFile s id element with ⟨r, tr⟩
      have htr : tr = [NetEvent.upload id element.Slug
          (uploadFilename element.Filename) element.ItemValue] :=
        (congrArg Prod.snd hup).symm
      cases r with
      | error e =>
        simp only [Server.updateFiles, if_neg hval, hup] at hev
        rw [htr] at hev
        simp only [List.mem_singleton] at hev
        rw [hev]
        rfl
      | ok u =>
        simp only [Server.updateFiles, if_neg hval, hup, List.mem_append] at hev
        rcases hev with hev | hev
        · rw [htr] at hev
          simp only [List.mem_singleton] at hev
          rw [hev]
          rfl
        · exact ih ev hev

/-- No event of the attachment download loop carries a serialized secret body
(they are all GET requests with no body). -/
theorem downloadFileFields_no_secret_body (s : Server) (id : Int) (l : List SecretField) :
    ∀ ev ∈ (downloadFileFields s id l).2, eventSecretBody ev = none := by
  induction l with
  | nil =>
    intro ev hev
    simp [downloadFileFields] at hev
  | cons element rest ih =>
    intro ev hev
    rcases hdl : downloadFileFields s id rest with ⟨r, tr⟩
    by_cases hneed : needsDownload element = true
    · cases hres : s.accessResource "GET" resource (fieldPath id element.Slug) none with
      | ok data =>
        cases r with
        | ok restFields =>
          simp only [downloadFileFields, hneed, if_true, hres, hdl, List.mem_cons] at hev
          rcases hev with hev | hev
          · rw [hev]
            rfl
          · exact ih ev (by rw [hdl]; exact hev)
        | error e =>
          simp only [downloadFileFields, hneed, if_true, hres, hdl, List.mem_cons] at hev
          rcases hev with hev | hev
          · rw [hev]
            rfl
          · exact ih ev (by rw [hdl]; exact hev)
      | error e =>
        simp only [downloadFileFields, hneed, if_true, hres, List.mem_singleton] at hev
        rw [hev]
        rfl
    · cases r with
      | ok restFields =>
        simp only [downloadFileFields, hneed, if_false, hdl] at hev
        exact ih ev (by rw [hdl]; exact hev)
      | error e =>
        simp only [downloadFileFields, hneed, if_false, hdl] at hev
        exact ih ev (by rw [hdl]; exact hev)

/-- No event of a secret read carries a serialized secret body. -/
theorem Secret_no_secret_body (s : Server) (id : Int) :
    ∀ ev ∈ (Server.Secret s id).2, eventSecretBody ev = none := by
  intro ev hev
  cases hres : s.accessResource "GET" resource (toString id) none with
  | error e =>
    simp only [Server.Secret, hres, List.mem_singleton] at hev
    rw [hev]
    rfl
  | ok data =>
    cases hum : s.unmarshalSecret data with
    | error e =>
      simp only [Server.Secret, hres, hum, List.mem_singleton] at hev
      rw [hev]
      rfl
    | ok secret =>
      cases hfs : secret.Fields with
      | none =>
        simp only [Server.Secret, hres, hum, hfs, List.mem_singleton] at hev
        rw [hev]
        rfl
      | some fields =>
        rcases hdl : downloadFileFields s id fields with ⟨r, tr⟩
        cases r with
        | ok newFields =>
          simp only [Server.Secret, hres, hum, hfs, hdl, List.mem_cons] at hev
          rcases hev with hev | hev
          · rw [hev]
            rfl
          · exact downloadFileFields_no_secret_body s id fields ev (by rw [hdl]; exact hev)
        | error e =>
          simp only [Server.Secret, hres, hum, hfs, hdl, List.mem_cons] at hev
          rcases hev with hev | hev
          · rw [hev]
            rfl
          · exact downloadFileFields_no_secret_body s id fields ev (by rw [hdl]; exact hev)

/-- No event of a template fetch carries a serialized secret body. -/
theorem SecretTemplate_no_secret_body (s : Server) (id : Int) :
    ∀ ev ∈ (Server.SecretTemplate s id).2, eventSecretBody ev = none := by
  intro ev hev
  rw [SecretTemplate_trace] at hev
  simp only [List.mem_singleton] at hev
  rw [hev]
  rfl

/-- The nil-Items substitution does not change SshKeyArgs. -/
theorem defaultEmptyFields_SshKeyArgs (x : Secret) :
    (defaultEmptyFields x).SshKeyArgs = x.SshKeyArgs := by
  unfold defaultEmptyFields
  cases hf : x.Fields with
  | none => rfl
  | some l => rfl

/-- The SshKeyArgs normalization depends only on the SshKeyArgs component. -/
theorem normalizeSshKeyArgs_SshKeyArgs_eq (x y : Secret) (h : x.SshKeyArgs = y.SshKeyArgs) :
    (normalizeSshKeyArgs x).SshKeyArgs = (normalizeSshKeyArgs y).SshKeyArgs := by
  unfold normalizeSshKeyArgs
  rw [h]
  cases hy : y.SshKeyArgs with
  | none => exact h
  | some args =>
    dsimp only
    by_cases hcl : (!args.GenerateSshKeys && !args.GeneratePassphrase) = true
    · rw [if_pos hcl, if_pos hcl]
    · rw [if_neg hcl, if_neg hcl]
      exact h

/-- Every serialized secret body issued by the request tail equals the
normalized secret: SshKeyArgs normalization followed by the nil-Items
substitution, applied to the secret entering the tail. -/
theorem afterClassification_bodies (s : Server) (secret : Secret)
    (ff : Option (List SecretField)) (method path : String) :
    ∀ ev ∈ (Server.afterClassification s secret ff method path).2, ∀ b,
      eventSecretBody ev = some b →
      b = defaultEmptyFields (normalizeSshKeyArgs secret) := by
  intro ev hev b hb
  cases hres : s.accessResource method resource path
      (some (ReqBody.secretBody (defaultEmptyFields (normalizeSshKeyArgs secret)))) with
  | error e =>
    simp only [Server.afterClassification, hres, List.mem_singleton] at hev
    rw [hev] at hb
    have hsome : some (defaultEmptyFields (normalizeSshKeyArgs secret)) = some b := hb
    exact (Option.some.inj hsome).symm
  | ok data =>
    cases hum : s.unmarshalSecret data with
    | error e =>
      simp only [Server.afterClassification, hres, hum, List.mem_singleton] at hev
      rw [hev] at hb
      have hsome : some (defaultEmptyFields (normalizeSshKeyArgs secret)) = some b := hb
      exact (Option.some.inj hsome).symm
    | ok writtenSecret =>
      rcases hup : Server.updateFiles s writtenSecret.ID (optList ff) with ⟨r, tr⟩
      cases r with
      | error e =>
        simp only [Server.afterClassification, hres, hum, hup, List.mem_cons] at hev
        rcases hev with hev | hev
        · rw [hev] at hb
          have hsome : some (defaultEmptyFields (normalizeSshKeyArgs secret)) = some b := hb
          exact (Option.some.inj hsome).symm
        · exfalso
          have hnone := updateFiles_no_secret_body s writtenSecret.ID (optList ff) ev
            (by rw [hup]; exact hev)
          rw [hnone] at hb
          exact Option.noConfusion hb
      | ok u =>
        simp only [Server.afterClassification, hres, hum, hup, List.mem_cons,
          List.mem_append] at hev
        rcases hev with hev | hev | hev
        · rw [hev] at hb
          have hsome : some (defaultEmptyFields (normalizeSshKeyArgs secret)) = some b := hb
          exact (Option.some.inj hsome).symm
        · exfalso
          have hnone := updateFiles_no_secret_body s writtenSecret.ID (optList ff) ev
            (by rw [hup]; exact hev)
          rw [hnone] at hb
          exact Option.noConfusion hb
        · exfalso
          have hnone := Secret_no_secret_body s writtenSecret.ID ev hev
          rw [hnone] at hb
          exact Option.noConfusion hb

/-- writeSecret propagates a template-fetch failure having issued only the
template GET. -/
theorem writeSecret_template_error (s : Server) (secret : Secret)
    (method path : String) (e : String)
    (ht : (Server.SecretTemplate s secret.SecretTemplateID).1 = Except.error e) :
    Server.writeSecret s secret method path =
      (Except.error e, (Server.SecretTemplate s secret.SecretTemplateID).2) := by
  rcases hp : Server.SecretTemplate s secret.SecretTemplateID with ⟨r, tr⟩
  rw [hp] at ht
  have hr : r = Except.error e := ht
  subst hr
  unfold Server.writeSecret
  rw [hp]

/-- writeSecret with a key-generation directive skips classification and goes
straight to the request tail with the secret unchanged and an empty (non-nil)
retained file-field list. -/
theorem writeSecret_skip_eq (s : Server) (secret : Secret)
    (method path : String) (template : SecretTemplate)
    (ht : (Server.SecretTemplate s secret.SecretTemplateID).1 = Except.ok template)
    (hskip : ∃ args, secret.SshKeyArgs = some args ∧ args.GenerateSshKeys = true) :
    Server.writeSecret s secret method path =
      prependTrace (Server.SecretTemplate s secret.SecretTemplateID).2
        (Server.afterClassification s secret (some []) method path) := by
  rcases hp : Server.SecretTemplate s secret.SecretTemplateID with ⟨r, tr⟩
  rw [hp] at ht
  have hr : r = Except.ok template := ht
  subst hr
  rcases hskip with ⟨args, hargs, hgen⟩
  unfold Server.writeSecret
  rw [hp, hargs]
  simp [hgen]

/-- writeSecret with classification succeeding continues into the request tail
with the general fields as the secret's field list and the file fields
retained. -/
theorem writeSecret_run_ok (s : Server) (secret : Secret)
    (method path : String) (template : SecretTemplate)
    (ff gf : Option (List SecretField))
    (ht : (Server.SecretTemplate s secret.SecretTemplateID).1 = Except.ok template)
    (hrun : secret.SshKeyArgs = none ∨
      ∃ args, secret.SshKeyArgs = some args ∧ args.GenerateSshKeys = false)
    (hsep : secret.separateFileFields template = Except.ok (ff, gf)) :
    Server.writeSecret s secret method path =
      prependTrace (Server.SecretTemplate s secret.SecretTemplateID).2
        (Server.afterClassification s { secret with Fields := gf } ff method path) := by
  rcases hp : Server.SecretTemplate s secret.SecretTemplateID with ⟨r, tr⟩
  rw [hp] at ht
  have hr : r = Except.ok template := ht
  subst hr
  have hskip : (match secret.SshKeyArgs with
      | none => false
      | some args => args.GenerateSshKeys) = false := by
    rcases hrun with hnone | ⟨args, hargs, hgen⟩
    · rw [hnone]
    · rw [hargs]
      exact hgen
  unfold Server.writeSecret
  rw [hp, hskip]
  simp [hsep]

/-- Every serialized secret body issued by writeSecret has the SshKeyArgs of
the normalized input secret and a non-nil (explicitly present) field list. -/
theorem writeSecret_bodies (s : Server) (secret : Secret) (method path : String) :
    ∀ ev ∈ (Server.writeSecret s secret method path).2, ∀ b,
      eventSecretBody ev = some b →
      b.SshKeyArgs = (normalizeSshKeyArgs secret).SshKeyArgs ∧ ∃ l, b.Fields = some l := by
  intro ev hev b hb
  have hargs_norm : ∀ sec2 : Secret, sec2.SshKeyArgs = secret.SshKeyArgs →
      (defaultEmptyFields (normalizeSshKeyArgs sec2)).SshKeyArgs =
        (normalizeSshKeyArgs secret).SshKeyArgs := by
    intro sec2 hsk
    rw [defaultEmptyFields_SshKeyArgs]
    exact normalizeSshKeyArgs_SshKeyArgs_eq sec2 secret hsk
  have hfields_some : ∀ sec2 : Secret, ∃ l,
      (defaultEmptyFields (normalizeSshKeyArgs sec2)).Fields = some l := by
    intro sec2
    unfold defaultEmptyFields
    cases hf : (normalizeSshKeyArgs sec2).Fields with
    | none => exact ⟨[], rfl⟩
    | some l => exact ⟨l, hf⟩
  have hbody_none : ∀ hev2 : ev ∈ (Server.SecretTemplate s secret.SecretTemplateID).2, False := by
    intro hev2
    have hnone := SecretTemplate_no_secret_body s secret.SecretTemplateID ev hev2
    rw [hnone] at hb
    exact Option.noConfusion hb
  rcases hp : Server.SecretTemplate s secret.SecretTemplateID with ⟨r, tr⟩
  cases r with
  | error e =>
    have heq := writeSecret_template_error s secret method path e (by rw [hp])
    rw [heq] at hev
    exact absurd hev (fun h2 => hbody_none h2)
  | ok template =>
    have ht : (Server.SecretTemplate s secret.SecretTemplateID).1 = Except.ok template := by
      rw [hp]
    by_cases hsk : ∃ args, secret.SshKeyArgs = some args ∧ args.GenerateSshKeys = true
    · have heq := writeSecret_skip_eq s secret method path template ht hsk
      rw [heq] at hev
      simp only [prependTrace, List.mem_append] at hev
      rcases hev with hev | hev
      · exact absurd hev (fun h2 => hbody_none h2)
      · have hbody := afterClassification_bodies s secret (some []) method path ev hev b hb
        subst hbody
        exact ⟨hargs_norm secret rfl, hfields_some secret⟩
    · have hrun : secret.SshKeyArgs = none ∨
          ∃ args, secret.SshKeyArgs = some args ∧ args.GenerateSshKeys = false := by
        cases hsa : secret.SshKeyArgs with
        | none => exact Or.inl rfl
        | some args =>
          refine Or.inr ⟨args, rfl, ?_⟩
          cases hg : args.GenerateSshKeys with
          | false => rfl
          | true => exact absurd ⟨args, hsa, hg⟩ hsk
      cases hsep : secret.separateFileFields template with
      | error e =>
        have heq := writeSecret_run_error s secret method path template e ht hrun hsep
        rw [heq] at hev
        exact absurd hev (fun h2 => hbody_none h2)
      | ok pair =>
        rcases pair with ⟨ff, gf⟩
        have heq := writeSecret_run_ok s secret method path template ff gf ht hrun hsep
        rw [heq] at hev
        simp only [prependTrace, List.mem_append] at hev
        rcases hev with hev | hev
        · exact absurd hev (fun h2 => hbody_none h2)
        · have hbody := afterClassification_bodies s { secret with Fields := gf } ff
            method path ev hev b hb
          subst hbody
          exact ⟨hargs_norm { secret with Fields := gf } rfl,
            hfields_some { secret with Fields := gf }⟩

/-- C5: if the secret's SshKeyArgs directive is present but both
GenerateSshKeys and GeneratePassphrase are false, writeSecret clears the
directive before the request body is serialized: every serialized secret body
of every request issued by the write has SshKeyArgs nil, so an all-false
directive object never appears in a serialized write request. -/
theorem writeSecret_allfalse_ssh_args_cleared (s : Server) (secret : Secret)
    (method path : String) (args : SshKeyArgs)
    (h1 : secret.SshKeyArgs = some args)
    (h2 : args.GenerateSshKeys = false) (h3 : args.GeneratePassphrase = false) :
    ∀ ev ∈ (Server.writeSecret s secret method path).2, ∀ b,
      eventSecretBody ev = some b → b.SshKeyArgs = none := by
  intro ev hev b hb
  have hmain := (writeSecret_bodies s secret method path ev hev b hb).1
  rw [hmain]
  unfold normalizeSshKeyArgs
  rw [h1]
  simp [h2, h3]

/-- A secret carrying an all-false directive. -/
def c5Secret : Secret := { SecretTemplateID := 0, SshKeyArgs := some {} }

/-- The body serialized for c5Secret: directive cleared, empty explicit Items. -/
def c5Body : Secret := { SecretTemplateID := 0, Fields := some [] }

/-- The main write event issued for c5Secret. -/
def c5PostEvent : NetEvent :=
  NetEvent.access "POST" resource "/" (some (ReqBody.secretBody c5Body))

/-- Witness for C5: the concrete POST body of a write carrying an all-false
directive has SshKeyArgs nil. -/
theorem writeSecret_allfalse_ssh_args_cleared_witness :
    c5PostEvent ∈ (Server.writeSecret okServer c5Secret "POST" "/").2 ∧
      c5Body.SshKeyArgs = none :=
  ⟨by decide,
   writeSecret_allfalse_ssh_args_cleared okServer c5Secret "POST" "/"
     {} rfl rfl rfl c5PostEvent (by decide) c5Body (by decide)⟩

/-- C6: for every write, every serialized secret body of every issued request
carries the Items key explicitly as a (possibly empty) list, never an absent or
null value: a nil field list after field separation and directive
normalization is substituted by an explicit empty list before serialization. -/
theorem writeSecret_items_always_present (s : Server) (secret : Secret)
    (method path : String) :
    ∀ ev ∈ (Server.writeSecret s secret method path).2, ∀ b,
      eventSecretBody ev = some b → ∃ l, b.Fields = some l := by
  intro ev hev b hb
  exact (writeSecret_bodies s secret method path ev hev b hb).2

/-- A secret with a nil field list and no directive. -/
def c6Secret : Secret := { SecretTemplateID := 0 }

/-- The body serialized for c6Secret: explicit empty Items. -/
def c6Body : Secret := { SecretTemplateID := 0, Fields := some [] }

/-- The main write event issued for c6Secret. -/
def c6PostEvent : NetEvent :=
  NetEvent.access "POST" resource "/" (some (ReqBody.secretBody c6Body))

/-- Witness for C6: a concrete write whose field list is nil serializes an
explicit empty Items list. -/
theorem writeSecret_items_always_present_witness :
    c6PostEvent ∈ (Server.writeSecret okServer c6Secret "POST" "/").2 ∧
      ∃ l, c6Body.Fields = some l :=
  ⟨by decide,
   writeSecret_items_always_present okServer c6Secret "POST" "/"
     c6PostEvent (by decide) c6Body (by decide)⟩

/-! ## File-field reconciliation -/

/-- The single network event a file-field reconciliation step emits: a PATCH
marking the slug dirty with a null value when the field's value is empty, an
upload of the value otherwise. -/
def fileFieldEvent (secretId : Int) (f : SecretField) : NetEvent :=
  if f.ItemValue = "" then
    NetEvent.access "PATCH" resource (toString secretId ++ "/general")
      (some (ReqBody.patchBody (patchFor f.Slug)))
  else
    NetEvent.upload secretId f.Slug (uploadFilename f.Filename) f.ItemValue

/-- The transport outcome of a file-field reconciliation step. -/
def fileFieldCall (s : Server) (secretId : Int) (f : SecretField) : Except String Unit :=
  if f.ItemValue = "" then
    match s.accessResource "PATCH" resource (toString secretId ++ "/general")
        (some (ReqBody.patchBody (patchFor f.Slug))) with
    | Except.ok _ => Except.ok ()
    | Except.error e => Except.error e
  else (Server.uploadFile s secretId f).1

/-- One successful reconciliation step: its event is emitted and the loop
continues. -/
theorem updateFiles_cons_ok (s : Server) (id : Int) (x : SecretField)
    (rest : List SecretField) (hx : fileFieldCall s id x = Except.ok ()) :
    Server.updateFiles s id (x :: rest) =
      ((Server.updateFiles s id rest).1,
       fileFieldEvent id x :: (Server.updateFiles s id rest).2) := by
  by_cases hval : x.ItemValue = ""
  · cases hres : s.accessResource "PATCH" resource (toString id ++ "/general")
        (some (ReqBody.patchBody (patchFor x.Slug))) with
    | error e =>
      exfalso
      have hcall : fileFieldCall s id x = Except.error e := by
        unfold fileFieldCall
        rw [if_pos hval, hres]
      rw [hcall] at hx
      exact Except.noConfusion hx
    | ok u =>
      simp only [Server.updateFiles, if_pos hval, hres, fileFieldEvent]
  · have hx2 : s.uploadRequest id x.Slug (uploadFilename x.Filename) x.ItemValue =
        Except.ok () := by
      have h2 := hx
      unfold fileFieldCall at h2
      rw [if_neg hval] at h2
      exact h2
    have hup : Server.uploadFile s id x =
        (Except.ok (), [NetEvent.upload id x.Slug (uploadFilename x.Filename) x.ItemValue]) := by
      show (s.uploadRequest id x.Slug (uploadFilename x.Filename) x.ItemValue,
            [NetEvent.upload id x.Slug (uploadFilename x.Filename) x.ItemValue]) =
          (Except.ok (), [NetEvent.upload id x.Slug (uploadFilename x.Filename) x.ItemValue])
      rw [hx2]
    simp only [Server.updateFiles, if_neg hval, hup, fileFieldEvent, List.singleton_append]

/-- One failing reconciliation step: its event is emitted and the loop aborts
with the error. -/
theorem updateFiles_cons_error (s : Server) (id : Int) (x : SecretField)
    (rest : List SecretField) (e : String)
    (hx : fileFieldCall s id x = Except.error e) :
    Server.updateFiles s id (x :: rest) = (Except.error e, [fileFieldEvent id x]) := by
  by_cases hval : x.ItemValue = ""
  · cases hres : s.accessResource "PATCH" resource (toString id ++ "/general")
        (some (ReqBody.patchBody (patchFor x.Slug))) with
    | ok u =>
      exfalso
      have hcall : fileFieldCall s id x = Except.ok () := by
        unfold fileFieldCall
        rw [if_pos hval, hres]
      rw [hcall] at hx
      exact Except.noConfusion hx
    | error e2 =>
      have he2 : e2 = e := by
        have hcall : fileFieldCall s id x = Except.error e2 := by
          unfold fileFieldCall
          rw [if_pos hval, hres]
        rw [hcall] at hx
        exact Except.error.inj hx
      subst he2
      simp only [Server.updateFiles, if_pos hval, hres, fileFieldEvent]
  · have hx2 : s.uploadRequest id x.Slug (uploadFilename x.Filename) x.ItemValue =
        Except.error e := by
      have h2 := hx
      unfold fileFieldCall at h2
      rw [if_neg hval] at h2
      exact h2
    have hup : Server.uploadFile s id x =
        (Except.error e, [NetEvent.upload id x.Slug (uploadFilename x.Filename) x.ItemValue]) := by
      show (s.uploadRequest id x.Slug (uploadFilename x.Filename) x.ItemValue,
            [NetEvent.upload id x.Slug (uploadFilename x.Filename) x.ItemValue]) =
          (Except.error e, [NetEvent.upload id x.Slug (uploadFilename x.Filename) x.ItemValue])
      rw [hx2]
    simp only [Server.updateFiles, if_neg hval, hup, fileFieldEvent]

/-- When every reconciliation call succeeds, updateFiles emits exactly one
event per field, in input order. -/
theorem updateFiles_all_ok (s : Server) (id : Int) (l : List SecretField)
    (h : ∀ f ∈ l, fileFieldCall s id f = Except.ok ()) :
    Server.updateFiles s id l = (Except.ok (), l.map (fileFieldEvent id)) := by
  induction l with
  | nil => rfl
  | cons x rest ih =>
    rw [updateFiles_cons_ok s id x rest (h x (List.mem_cons_self _ _)),
      ih (fun f hf => h f (List.mem_cons_of_mem _ hf))]
    rfl

/-- The first failing reconciliation call aborts updateFiles: the trace stops
at the failing field's event and the error propagates. -/
theorem updateFiles_abort (s : Server) (id : Int) (pre : List SecretField)
    (x : SecretField) (rest : List SecretField)
    (hpre : ∀ f ∈ pre, fileFieldCall s id f = Except.ok ())
    (e : String) (he : fileFieldCall s id x = Except.error e) :
    Server.updateFiles s id (pre ++ x :: rest) =
      (Except.error e, pre.map (fileFieldEvent id) ++ [fileFieldEvent id x]) := by
  induction pre with
  | nil =>
    simp only [List.nil_append, List.map_nil]
    rw [updateFiles_cons_error s id x rest e he]
  | cons f pre' ih =>
    simp only [List.cons_append]
    rw [updateFiles_cons_ok s id f (pre' ++ x :: rest) (hpre f (List.mem_cons_self _ _)),
      ih (fun g hg => hpre g (List.mem_cons_of_mem _ hg))]
    rfl

/-- C7: updateFiles processes the retained file fields strictly in input
order, emitting exactly one event per field: for an empty value the single
PATCH whose body carries the one modification (slug, dirty true, null value)
and never an upload; for a non-empty value an upload and never a PATCH.  When
every call succeeds the trace is the event list of all fields in order; the
first error aborts immediately: the trace stops at the failing field's event,
later fields are not processed, and the error propagates. -/
theorem updateFiles_order_and_abort (s : Server) (id : Int) (l : List SecretField) :
    ((∀ f ∈ l, fileFieldCall s id f = Except.ok ()) →
      Server.updateFiles s id l = (Except.ok (), l.map (fileFieldEvent id))) ∧
    (∀ pre x rest, l = pre ++ x :: rest →
      (∀ f ∈ pre, fileFieldCall s id f = Except.ok ()) →
      ∀ e, fileFieldCall s id x = Except.error e →
        Server.updateFiles s id l =
          (Except.error e, pre.map (fileFieldEvent id) ++ [fileFieldEvent id x])) ∧
    (∀ f : SecretField,
      (f.ItemValue = "" → fileFieldEvent id f =
        NetEvent.access "PATCH" resource (toString id ++ "/general")
          (some (ReqBody.patchBody
            { Data := { SecretFields := [{ Slug := f.Slug, Dirty := true, Value := none }] } }))) ∧
      (f.ItemValue ≠ "" → fileFieldEvent id f =
        NetEvent.upload id f.Slug (uploadFilename f.Filename) f.ItemValue)) := by
  refine ⟨fun h => updateFiles_all_ok s id l h, ?_, ?_⟩
  · intro pre x rest hl hpre e he
    subst hl
    exact updateFiles_abort s id pre x rest hpre e he
  · intro f
    constructor
    · intro hval
      unfold fileFieldEvent patchFor
      rw [if_pos hval]
    · intro hval
      unfold fileFieldEvent
      rw [if_neg hval]

/-- A file field with an empty value (reconciled by a deletion PATCH). -/
def emptyValueField : SecretField := { FieldID := 2, Slug := "key", IsFile := true }

/-- A file field with a non-empty value (reconciled by an upload). -/
def fullValueField : SecretField :=
  { FieldID := 2, Slug := "key", Filename := "k.pem", ItemValue := "abc", IsFile := true }

/-- Witness for C7: a concrete two-field reconciliation in which both calls
succeed emits exactly the PATCH then the upload, in order. -/
theorem updateFiles_order_and_abort_witness :
    Server.updateFiles okServer 9 [emptyValueField, fullValueField] =
      (Except.ok (), [emptyValueField, fullValueField].map (fileFieldEvent 9)) :=
  (updateFiles_order_and_abort okServer 9 [emptyValueField, fullValueField]).1
    (by
      intro f hf
      simp only [List.mem_cons, List.not_mem_nil, or_false] at hf
      rcases hf with rfl | rfl <;> rfl)

/-! ## The secret reader -/

/-- The value a fetched field carries after the automatic attachment download:
the secondary fetch's raw bytes for a field meeting all three download
conditions (when that fetch succeeds), the primary record's value otherwise. -/
def inlineField (s : Server) (id : Int) (f : SecretField) : SecretField :=
  if needsDownload f then
    match s.accessResource "GET" resource (fieldPath id f.Slug) none with
    | Except.ok data => { f with ItemValue := data }
    | Except.error _ => f
  else f

/-- When every needed secondary fetch succeeds, the download loop returns the
input fields with attachments inlined and issues one GET per file field, in
input order. -/
theorem downloadFileFields_all_ok (s : Server) (id : Int) (l : List SecretField)
    (h : ∀ f ∈ l, needsDownload f = true →
      ∃ d, s.accessResource "GET" resource (fieldPath id f.Slug) none = Except.ok d) :
    downloadFileFields s id l =
      (Except.ok (l.map (inlineField s id)),
       (l.filter needsDownload).map
         (fun f => NetEvent.access "GET" resource (fieldPath id f.Slug) none)) := by
  induction l with
  | nil => rfl
  | cons x rest ih =>
    have ihh := ih (fun f hf hn => h f (List.mem_cons_of_mem _ hf) hn)
    by_cases hneed : needsDownload x = true
    · obtain ⟨d, hd⟩ := h x (List.mem_cons_self _ _) hneed
      have hinline : inlineField s id x = { x with ItemValue := d } := by
        unfold inlineField
        rw [if_pos hneed, hd]
      simp only [downloadFileFields, hneed, if_true, hd, ihh, List.map_cons,
        List.filter_cons_of_pos hneed, hinline]
    · have hinline : inlineField s id x = x := by
        unfold inlineField
        rw [if_neg hneed]
      have hfilter : (x :: rest).filter needsDownload = rest.filter needsDownload :=
        List.filter_cons_of_neg (by simpa using hneed)
      simp only [downloadFileFields, hneed, ihh, List.map_cons, hfilter, hinline]
      rfl

/-- A failing needed secondary fetch makes the download loop fail. -/
theorem downloadFileFields_error (s : Server) (id : Int) (l : List SecretField)
    (hfail : ∃ f ∈ l, needsDownload f = true ∧
      ∃ e, s.accessResource "GET" resource (fieldPath id f.Slug) none = Except.error e) :
    ∃ e2, (downloadFileFields s id l).1 = Except.error e2 := by
  induction l with
  | nil =>
    rcases hfail with ⟨f, hf, _⟩
    exact absurd hf (List.not_mem_nil f)
  | cons x rest ih =>
    rcases hfail with ⟨f, hf, hneedf, e, he⟩
    rcases List.mem_cons.mp hf with rfl | hf2
    · cases hres : s.accessResource "GET" resource (fieldPath id f.Slug) none with
      | error e3 =>
        refine ⟨e3, ?_⟩
        simp only [downloadFileFields, hneedf, if_true, hres]
      | ok d =>
        rw [hres] at he
        exact absurd he (Except.noConfusion)
    · obtain ⟨e2, he2⟩ := ih ⟨f, hf2, hneedf, e, he⟩
      rcases hdl : downloadFileFields s id rest with ⟨r, tr⟩
      rw [hdl] at he2
      have hr : r = Except.error e2 := he2
      subst hr
      by_cases hneed : needsDownload x = true
      · cases hres : s.accessResource "GET" resource (fieldPath id x.Slug) none with
        | ok d =>
          refine ⟨e2, ?_⟩
          simp only [downloadFileFields, hneed, if_true, hres, hdl]
        | error e3 =>
          refine ⟨e3, ?_⟩
          simp only [downloadFileFields, hneed, if_true, hres]
      · refine ⟨e2, ?_⟩
        simp only [downloadFileFields, hneed, hdl]
        rfl

/-- C8: for a secret read whose primary GET and decode succeed, every field
with IsFile true, a non-zero FileAttachmentID and a non-empty Filename gets a
secondary fetch at id/fields/slug whose raw bytes replace its ItemValue, in
input order; fields not meeting all three conditions keep the primary record's
value; if every needed fetch succeeds the read returns the inlined secret and
the trace is the primary GET followed by one GET per file field, and a failure
of any needed secondary fetch makes the whole read return an error. -/
theorem Secret_inlines_file_fields (s : Server) (id : Int) (data : String)
    (secret0 : Secret) (fs : List SecretField)
    (h1 : s.accessResource "GET" resource (toString id) none = Except.ok data)
    (h2 : s.unmarshalSecret data = Except.ok secret0)
    (h3 : secret0.Fields = some fs) :
    ((∀ f ∈ fs, needsDownload f = true →
        ∃ d, s.accessResource "GET" resource (fieldPath id f.Slug) none = Except.ok d) →
      Server.Secret s id =
        (Except.ok { secret0 with Fields := some (fs.map (inlineField s id)) },
         NetEvent.access "GET" resource (toString id) none ::
           (fs.filter needsDownload).map
             (fun f => NetEvent.access "GET" resource (fieldPath id f.Slug) none))) ∧
    ((∃ f ∈ fs, needsDownload f = true ∧
        ∃ e, s.accessResource "GET" resource (fieldPath id f.Slug) none = Except.error e) →
      ∃ e2, (Server.Secret s id).1 = Except.error e2) ∧
    (∀ f ∈ fs, needsDownload f = false → inlineField s id f = f) := by
  refine ⟨?_, ?_, ?_⟩
  · intro hall
    have hdl := downloadFileFields_all_ok s id fs hall
    simp only [Server.Secret, h1, h2, h3, hdl]
  · intro hfail
    obtain ⟨e2, he2⟩ := downloadFileFields_error s id fs hfail
    rcases hdl : downloadFileFields s id fs with ⟨r, tr⟩
    rw [hdl] at he2
    have hr : r = Except.error e2 := he2
    subst hr
    refine ⟨e2, ?_⟩
    simp only [Server.Secret, h1, h2, h3, hdl]
  · intro f hf hn
    simp [inlineField, hn]

/-- The secret record the read server decodes every response into. -/
def readSecretRecord : Secret :=
  { ID := 3, Fields := some [samplePasswordField, sampleFileField] }

/-- A server for concrete read tests: every request succeeds with body DD and
every secret decodes to readSecretRecord. -/
def readServer : Server :=
  { accessResource := fun _ _ _ _ => Except.ok "DD"
    uploadRequest := fun _ _ _ _ => Except.ok ()
    unmarshalSecret := fun _ => Except.ok readSecretRecord
    unmarshalTemplate := fun _ => Except.ok sampleTemplate }

/-- Witness for C8 at a concrete read: the file field is inlined from the
secondary fetch and the password field keeps its primary value. -/
theorem Secret_inlines_file_fields_witness :
    Server.Secret readServer 3 =
      (Except.ok { readSecretRecord with
         Fields := some ([samplePasswordField, sampleFileField].map (inlineField readServer 3)) },
       NetEvent.access "GET" resource (toString (3 : Int)) none ::
         ([samplePasswordField, sampleFileField].filter needsDownload).map
           (fun f => NetEvent.access "GET" resource (fieldPath 3 f.Slug) none)) :=
  (Secret_inlines_file_fields readServer 3 "DD" readSecretRecord
    [samplePasswordField, sampleFileField] rfl rfl rfl).1
    (fun f hf hn => ⟨"DD", rfl⟩)

/-! ## The filename-extension regular expression -/

/-- takeWhile and dropWhile on a satisfying run followed by a non-satisfying
head. -/
theorem takeWhile_dropWhile_append (p : α → Bool) (l1 l2 : List α)
    (h1 : ∀ x ∈ l1, p x = true) (h2 : ∀ y, l2.head? = some y → p y = false) :
    (l1 ++ l2).takeWhile p = l1 ∧ (l1 ++ l2).dropWhile p = l2 := by
  induction l1 with
  | nil =>
    simp only [List.nil_append]
    cases l2 with
    | nil => exact ⟨rfl, rfl⟩
    | cons y t =>
      have hy := h2 y rfl
      exact ⟨List.takeWhile_cons_of_neg (by simp [hy]),
        List.dropWhile_cons_of_neg (by simp [hy])⟩
  | cons x l1' ih =>
    have hx := h1 x (List.mem_cons_self _ _)
    obtain ⟨ht, hd⟩ := ih (fun z hz => h1 z (List.mem_cons_of_mem _ hz))
    constructor
    · rw [List.cons_append, List.takeWhile_cons_of_pos hx, ht]
    · rw [List.cons_append, List.dropWhile_cons_of_pos hx, hd]

/-- The decision procedure extMatch decides the matching relation of the
uploadFile filename regular expression. -/
theorem extMatch_iff (filename : String) :
    extMatch filename = true ↔ extRegexMatches filename := by
  constructor
  · intro h
    unfold extMatch at h
    rcases hdrop : (filename.toList.reverse).dropWhile isWordChar with _ | ⟨c1, rest1⟩
    · rw [hdrop] at h
      simp at h
    · rcases rest1 with _ | ⟨c2, t⟩
      · rw [hdrop] at h
        simp at h
      · rw [hdrop] at h
        simp only [Bool.and_eq_true, beq_iff_eq, Bool.not_eq_true',
          beq_eq_false_iff_ne] at h
        obtain ⟨⟨hc1, hc2⟩, hne⟩ := h
        subst hc1
        have hsplit : (filename.toList.reverse).takeWhile isWordChar ++
            (filename.toList.reverse).dropWhile isWordChar = filename.toList.reverse :=
          List.takeWhile_append_dropWhile ..
        rw [hdrop] at hsplit
        refine ⟨t.reverse, c2, ((filename.toList.reverse).takeWhile isWordChar).reverse,
          ?_, hc2, ?_, ?_⟩
        · calc filename.toList = filename.toList.reverse.reverse :=
                (List.reverse_reverse _).symm
            _ = ((filename.toList.reverse).takeWhile isWordChar ++
                  '.' :: c2 :: t).reverse := by rw [hsplit]
            _ = t.reverse ++ c2 :: '.' ::
                  ((filename.toList.reverse).takeWhile isWordChar).reverse := by simp
        · intro hcontra
          have hnil : (filename.toList.reverse).takeWhile isWordChar = [] :=
            List.reverse_eq_nil_iff.mp hcontra
          rw [hnil] at hne
          simp at hne
        · intro ch hch
          exact List.mem_takeWhile_imp (List.mem_reverse.mp hch)
  · rintro ⟨a, c, w, heq, hc, hw, hword⟩
    have hrev : filename.toList.reverse = w.reverse ++ '.' :: c :: a.reverse := by
      rw [heq]
      simp
    obtain ⟨htake, hdrop⟩ := takeWhile_dropWhile_append isWordChar w.reverse
      ('.' :: c :: a.reverse)
      (fun x hx => hword x (List.mem_reverse.mp hx))
      (fun y hy => by
        have hy2 : y = '.' := (Option.some.inj hy).symm
        subst hy2
        decide)
    have htake2 : (filename.toList.reverse).takeWhile isWordChar = w.reverse := by
      rw [hrev]
      exact htake
    have hdrop2 : (filename.toList.reverse).dropWhile isWordChar =
        '.' :: c :: a.reverse := by
      rw [hrev]
      exact hdrop
    have hempt : (w.reverse).isEmpty = false := by
      cases hwr : w.reverse with
      | nil => exact absurd (List.reverse_eq_nil_iff.mp hwr) hw
      | cons _ _ => rfl
    have hcbeq : (c == '.') = false := beq_eq_false_iff_ne.mpr hc
    have hdrop3 : List.dropWhile isWordChar filename.data.reverse =
        '.' :: c :: a.reverse := hdrop2
    have htake3 : List.takeWhile isWordChar filename.data.reverse = w.reverse := htake2
    simp [extMatch, hdrop3, htake3, hempt, hcbeq]

/-- C9: the event emitted by uploadFile carries the field's ItemValue as the
uploaded content and the assigned filename: the field's Filename when it
matches the dot-extension regular expression, the fixed placeholder File.txt
when the Filename is empty, and the Filename with the default .txt extension
appended when it is non-empty but does not match. -/
theorem uploadFile_filename_policy (s : Server) (secretId : Int) (f : SecretField) :
    (Server.uploadFile s secretId f).2 =
      [NetEvent.upload secretId f.Slug (uploadFilename f.Filename) f.ItemValue] ∧
    (f.Filename = "" → uploadFilename f.Filename = "File.txt") ∧
    (f.Filename ≠ "" → extRegexMatches f.Filename →
      uploadFilename f.Filename = f.Filename) ∧
    (f.Filename ≠ "" → ¬extRegexMatches f.Filename →
      uploadFilename f.Filename = f.Filename ++ ".txt") := by
  refine ⟨rfl, ?_, ?_, ?_⟩
  · intro h
    unfold uploadFilename
    rw [if_pos h]
  · intro h hm
    unfold uploadFilename
    rw [if_neg h, if_pos ((extMatch_iff f.Filename).mpr hm)]
  · intro h hm
    unfold uploadFilename
    rw [if_neg h, if_neg (fun hx => hm ((extMatch_iff f.Filename).mp hx))]

/-- Witness for C9: a filename already carrying a dot-extension is kept
unchanged. -/
theorem uploadFile_filename_policy_witness :
    uploadFilename "a.pem" = "a.pem" :=
  (uploadFile_filename_policy stubServer 1 { Filename := "a.pem" }).2.2.1
    (by decide)
    ⟨[], 'a', ['p', 'e', 'm'], rfl, by decide, by decide, by decide⟩

/-- C10: for a slug that does not identify any field on the template,
GeneratePassword does not return an error for the failed lookup: it issues the
single generate-password POST with field ID 0; a successful response (of at
least two bytes) yields the response body stripped of its first and last byte,
and an error result only reproduces a transport error — the lookup failure
alone never produces an error result. -/
theorem GeneratePassword_ignores_lookup_failure (s : Server) (slug : String)
    (template : SecretTemplate)
    (hnf : template.GetField slug = none) :
    (Server.GeneratePassword s slug template).2 =
      [NetEvent.access "POST" templateResource "generate-password/0" none] ∧
    (∀ data, s.accessResource "POST" templateResource "generate-password/0" none =
        Except.ok data → 2 ≤ data.length →
      (Server.GeneratePassword s slug template).1 =
        Except.ok (stripFirstLastByte data)) ∧
    (∀ e, s.accessResource "POST" templateResource "generate-password/0" none =
        Except.error e →
      (Server.GeneratePassword s slug template).1 = Except.error e) := by
  have hid : (template.FieldSlugToId slug).1 = 0 := by
    unfold SecretTemplate.FieldSlugToId
    rw [hnf]
  have hGP : Server.GeneratePassword s slug template =
      (match s.accessResource "POST" templateResource
          ("generate-password/" ++ toString (template.FieldSlugToId slug).1) none with
       | Except.ok data => (Except.ok (stripFirstLastByte data),
           [NetEvent.access "POST" templateResource
             ("generate-password/" ++ toString (template.FieldSlugToId slug).1) none])
       | Except.error e => (Except.error e,
           [NetEvent.access "POST" templateResource
             ("generate-password/" ++ toString (template.FieldSlugToId slug).1) none])) := rfl
  rw [hid] at hGP
  have hps : "generate-password/" ++ toString (0 : Int) = "generate-password/0" := rfl
  rw [hps] at hGP
  refine ⟨?_, ?_, ?_⟩
  · rw [hGP]
    cases hres : s.accessResource "POST" templateResource "generate-password/0" none with
    | ok data => rfl
    | error e => rfl
  · intro data hdata hlen
    rw [hGP, hdata]
  · intro e he
    rw [hGP, he]

/-- Witness for C10: a concrete lookup miss still yields a successful
generate-password call at field ID 0 with the stripped response. -/
theorem GeneratePassword_ignores_lookup_failure_witness :
    (Server.GeneratePassword okServer "nope" sampleTemplate).2 =
      [NetEvent.access "POST" templateResource "generate-password/0" none] ∧
    (Server.GeneratePassword okServer "nope" sampleTemplate).1 =
      Except.ok (stripFirstLastByte "DD") := by
  have h := GeneratePassword_ignores_lookup_failure okServer "nope" sampleTemplate
    (by decide)
  exact ⟨h.1, h.2.1 "DD" rfl (by decide)⟩
